import Mathlib

set_option autoImplicit false

/-!
# A shallow embedding of the `streamxml` streaming XML parser

This file models the Go library `easyagent-dev/streamxml`: a streaming
tokenizer (`stream_xml_tokenizer.go`) and an incremental tree builder
(`stream_xml_parser.go`), together with its configuration (`config.go`)
and error values (`errors.go`).

Modelling conventions:
* Go strings are `List Char`; slicing `s[a:b]` is `(s.drop a).take (b - a)`.
* Go `*XmlNode` pointers are indices (`Nat`) into an arena
  (`StreamXmlParser.arena`); pointer equality is index equality and
  mutation through a pointer is an in-place arena update.  This follows
  the heap behaviour of the source exactly: nodes referenced from the
  AST, the stack and `currentPartialNode` alias the same storage.
* Go maps `map[string]string` are association lists with last-write-wins
  insertion (`mapSet`); the claims only inspect their key/value contents.
* Loops are fuelled or proved terminating by an explicit measure; fuel
  bounds are generous enough that exhaustion is unreachable for the
  executions considered, and invariant proofs are per-step so they do not
  depend on the fuel.
* Errors: Go methods mutate the receiver and additionally return an
  `error`; we return `State × Option ParseError` so the mutated state on
  the error path is preserved, as in Go.
-/

namespace StreamXml

/-- `unicode.IsSpace` restricted to the ASCII range (the character set the
library is exercised with); matches Go for all ASCII characters. -/
def goIsSpace (c : Char) : Bool :=
  c = ' ' || c = '\t' || c = '\n' || c = '\x0b' || c = '\x0c' || c = '\r'

/-- `strings.TrimSpace`. -/
def trimSpace (s : List Char) : List Char :=
  ((s.dropWhile goIsSpace).reverse.dropWhile goIsSpace).reverse

/-- First whitespace-separated field of `s` (`strings.Fields(s)[0]`,
empty when there is none). -/
def firstField (s : List Char) : List Char :=
  (s.dropWhile goIsSpace).takeWhile (fun c => !goIsSpace c)

/-- `needle` is a leading run of `hay`. -/
def hasPfx : List Char → List Char → Bool
  | [], _ => true
  | _ :: _, [] => false
  | c :: cs, d :: ds => c = d && hasPfx cs ds

/-- `strings.Index hay needle`: first offset where `needle` occurs, `-1`
when absent. -/
def indexOfSub : List Char → List Char → Int
  | [], needle => if hasPfx needle [] then 0 else -1
  | c :: t, needle =>
    if hasPfx needle (c :: t) then 0
    else
      let r := indexOfSub t needle
      if r < 0 then -1 else r + 1

/-- Token kinds, from `stream_xml_tokenizer.go` (`TokenType`). -/
inductive TokenType where
  | text
  | openBracket
  | closeBracket
  | slash
  | elementName
  | attributeName
  | equals
  | attributeValue
  | incomplete
deriving DecidableEq, Repr, Inhabited

/-- A lexical token: a kind, a half-open `[start, endPos)` span into the
tokenizer buffer, and a completeness flag (`Token` in the source). -/
structure Token where
  typ : TokenType
  start : Nat
  endPos : Nat
  complete : Bool
deriving DecidableEq, Repr, Inhabited

/-- Tokenizer state (`StreamXmlTokenizer` in the source).  `allowedElements`
is `none` when all elements are allowed, mirroring the Go `nil` map. -/
structure StreamXmlTokenizer where
  buffer : List Char
  position : Nat
  allowedElements : Option (List (List Char))
  consumed : Nat
  inTag : Bool
  tagStartPos : Nat
  tagBuffer : List Char
  textBuffer : List Char
  textStartPos : Nat
  pendingTokens : List Token
  pendingIndex : Nat
  incompleteReturned : Bool
deriving DecidableEq, Repr

namespace StreamXmlTokenizer

/-- `NewStreamXmlTokenizer`. -/
def new : StreamXmlTokenizer :=
  { buffer := []
    position := 0
    allowedElements := none
    consumed := 0
    inTag := false
    tagStartPos := 0
    tagBuffer := []
    textBuffer := []
    textStartPos := 0
    pendingTokens := []
    pendingIndex := 0
    incompleteReturned := false }

/-- `SetAllowedElements`: `none` means all elements allowed, an explicit
list (possibly empty) means only those elements. -/
def setAllowedElements (t : StreamXmlTokenizer)
    (elements : Option (List (List Char))) : StreamXmlTokenizer :=
  { t with allowedElements := elements }

/-- `Append`: concatenate to the buffer, clear the incomplete-reported
flag so the next pull re-evaluates. -/
def appendData (t : StreamXmlTokenizer) (data : List Char) : StreamXmlTokenizer :=
  { t with buffer := t.buffer ++ data, incompleteReturned := false }

/-- Membership test against the allow-list (`t.allowedElements[elementName]`
in Go, on a non-nil map). -/
def allowedMem (allowed : List (List Char)) (name : List Char) : Bool :=
  allowed.contains name

/-- The classification part of `parseAndEmitTag`: strip `<`/`>`, detect a
leading `/` (closing) and trailing `/` (self-closing), split off the
element name at the first whitespace; returns
`(isClosing, isSelfClosing, elementName, restOfTag)`. -/
def parseTagParts (tagContent : List Char) :
    Bool × Bool × List Char × List Char :=
  let inner := (tagContent.drop 1).take (tagContent.length - 2)
  let isClosing := decide (inner ≠ [] ∧ inner.head? = some '/')
  let inner := if isClosing then inner.drop 1 else inner
  let isSelfClosing := decide (inner ≠ [] ∧ inner.getLast? = some '/')
  let inner := if isSelfClosing then inner.take (inner.length - 1) else inner
  let inner := trimSpace inner
  let spaceSplit := inner.takeWhile (fun c => !goIsSpace c)
  let elementName := spaceSplit
  let restOfTag :=
    if spaceSplit.length < inner.length then
      trimSpace (inner.drop (spaceSplit.length + 1))
    else []
  (isClosing, isSelfClosing, elementName, restOfTag)

/-- One step structure of `parseAndEmitAttributes`: emits
AttributeName / Equals / AttributeValue tokens for `attrStr` starting at
absolute position `startPos`.  `i` is the cursor into `attrStr` and
`fuel` bounds the Go `for` loop (each iteration advances `i`). -/
def parseAndEmitAttributes (attrStr : List Char) (startPos : Nat) : List Token :=
  go 0 startPos (attrStr.length + 1)
where
  go (i currentPos fuel : Nat) : List Token :=
    match fuel with
    | 0 => []
    | fuel + 1 =>
      -- skip whitespace
      let ws := (attrStr.drop i).takeWhile goIsSpace |>.length
      let i := i + ws
      let currentPos := currentPos + ws
      if i ≥ attrStr.length then []
      else
        -- attribute name: up to '=' or whitespace
        let nameLen :=
          ((attrStr.drop i).takeWhile (fun c => c ≠ '=' && !goIsSpace c)).length
        let i' := i + nameLen
        if i' ≥ attrStr.length then []
        else
          let nameTok : Token :=
            { typ := .attributeName, start := currentPos
              endPos := currentPos + nameLen, complete := true }
          let currentPos := currentPos + nameLen
          -- skip whitespace to '='
          let ws2 := ((attrStr.drop i').takeWhile goIsSpace).length
          let i2 := i' + ws2
          let currentPos := currentPos + ws2
          if i2 ≥ attrStr.length ∨ attrStr.getD i2 ' ' ≠ '=' then [nameTok]
          else
            let eqTok : Token :=
              { typ := .equals, start := currentPos
                endPos := currentPos + 1, complete := true }
            let i3 := i2 + 1
            let currentPos := currentPos + 1
            -- skip whitespace after '='
            let ws3 := ((attrStr.drop i3).takeWhile goIsSpace).length
            let i4 := i3 + ws3
            let currentPos := currentPos + ws3
            if i4 ≥ attrStr.length then [nameTok, eqTok]
            else
              let c := attrStr.getD i4 ' '
              if c = '"' ∨ c = '\'' then
                let quote := c
                let i5 := i4 + 1
                let currentPos := currentPos + 1
                let valueLen :=
                  ((attrStr.drop i5).takeWhile (fun d => d ≠ quote)).length
                let valTok : Token :=
                  { typ := .attributeValue, start := currentPos
                    endPos := currentPos + valueLen, complete := true }
                let i6 := i5 + valueLen
                let currentPos := currentPos + valueLen
                let i7 := if i6 < attrStr.length then i6 + 1 else i6
                let currentPos := if i6 < attrStr.length then currentPos + 1 else currentPos
                nameTok :: eqTok :: valTok :: go i7 currentPos fuel
              else
                let valueLen :=
                  ((attrStr.drop i4).takeWhile (fun d => !goIsSpace d)).length
                let valTok : Token :=
                  { typ := .attributeValue, start := currentPos
                    endPos := currentPos + valueLen, complete := true }
                nameTok :: eqTok :: valTok :: go (i4 + valueLen) (currentPos + valueLen) fuel

/-- `parseAndEmitTag`: turn the raw text of a just-completed tag into the
tokens appended to the pending queue.  A tag shorter than two characters,
or whose element name is not on a non-nil allow-list, becomes one single
complete Text token spanning the whole tag. -/
def parseAndEmitTag (allowed : Option (List (List Char))) (tagStartPos : Nat)
    (tagContent : List Char) : List Token :=
  if tagContent.length < 2 then
    [{ typ := .text, start := tagStartPos
       endPos := tagStartPos + tagContent.length, complete := true }]
  else
    let parts := parseTagParts tagContent
    let isClosing := parts.1
    let isSelfClosing := parts.2.1
    let elementName := parts.2.2.1
    let restOfTag := parts.2.2.2
    match allowed with
    | some l =>
      if !allowedMem l elementName then
        [{ typ := .text, start := tagStartPos
           endPos := tagStartPos + tagContent.length, complete := true }]
      else
        emitStructural isClosing isSelfClosing elementName restOfTag tagStartPos tagContent
    | none =>
      emitStructural isClosing isSelfClosing elementName restOfTag tagStartPos tagContent
where
  /-- The token-emission tail of `parseAndEmitTag` for an allowed tag. -/
  emitStructural (isClosing isSelfClosing : Bool) (elementName restOfTag : List Char)
      (tagStartPos : Nat) (tagContent : List Char) : List Token :=
    let openTok : Token :=
      { typ := .openBracket, start := tagStartPos
        endPos := tagStartPos + 1, complete := true }
    let pos1 := tagStartPos + 1
    let slashToks : List Token :=
      if isClosing then
        [{ typ := .slash, start := pos1, endPos := pos1 + 1, complete := true }]
      else []
    let pos2 := if isClosing then pos1 + 1 else pos1
    let nameTok : Token :=
      { typ := .elementName, start := pos2
        endPos := pos2 + elementName.length, complete := true }
    let attrToks : List Token :=
      if restOfTag ≠ [] then
        let tagContentStart := tagStartPos + 1 + (if isClosing then 1 else 0)
        let attrStartInTag :=
          indexOfSub (tagContent.drop (tagContentStart - tagStartPos)) restOfTag
        if attrStartInTag ≥ 0 then
          parseAndEmitAttributes restOfTag (tagContentStart + attrStartInTag.toNat)
        else []
      else []
    let selfSlashToks : List Token :=
      if isSelfClosing then
        let slashPos := tagStartPos + tagContent.length - 2
        [{ typ := .slash, start := slashPos, endPos := slashPos + 1, complete := true }]
      else []
    let closeBracketPos := tagStartPos + tagContent.length - 1
    let closeTok : Token :=
      { typ := .closeBracket, start := closeBracketPos
        endPos := closeBracketPos + 1, complete := true }
    openTok :: slashToks ++ nameTok :: (attrToks ++ selfSlashToks ++ [closeTok])

/-- The scan loop of `processText`, fuelled by the number of unscanned
buffer characters (each iteration advances the cursor by one). -/
def processTextGo (t : StreamXmlTokenizer) :
    Nat → Option Token × StreamXmlTokenizer
  | 0 => (none, t)
  | fuel + 1 =>
    if t.position < t.buffer.length then
      let ch := t.buffer.getD t.position ' '
      if ch = '<' then
        let tok : Option Token :=
          if t.textBuffer.length > 0 then
            some { typ := .text, start := t.textStartPos
                   endPos := t.position, complete := true }
          else none
        (tok, { t with textBuffer := [], inTag := true
                       tagStartPos := t.position, tagBuffer := [] })
      else
        processTextGo
          { t with
            textStartPos := if t.textBuffer.length = 0 then t.position else t.textStartPos
            textBuffer := t.textBuffer ++ [ch]
            position := t.position + 1 } fuel
    else (none, t)

/-- `processText`: scan forward accumulating literal characters; on `<`
flush the accumulated literal as a complete Text token (when non-empty)
and switch into tag mode at that `<`. -/
def processText (t : StreamXmlTokenizer) : Option Token × StreamXmlTokenizer :=
  processTextGo t (t.buffer.length - t.position)

/-- The scan loop of `tryCompleteTag`, fuelled like `processTextGo`. -/
def tryCompleteTagGo (t : StreamXmlTokenizer) :
    Nat → Bool × StreamXmlTokenizer
  | 0 => (false, t)
  | fuel + 1 =>
    if t.position < t.buffer.length then
      let ch := t.buffer.getD t.position ' '
      let t' := { t with tagBuffer := t.tagBuffer ++ [ch], position := t.position + 1 }
      if ch = '>' then
        let tagContent := t'.tagBuffer
        let toks := parseAndEmitTag t'.allowedElements t'.tagStartPos tagContent
        (true, { t' with pendingTokens := t'.pendingTokens ++ toks
                         inTag := false, tagBuffer := [], consumed := t'.position })
      else
        tryCompleteTagGo t' fuel
    else (false, t)

/-- `tryCompleteTag`: scan forward for the terminating `>`; on success
parse the tag, enqueue its tokens, leave tag mode and record consumption;
on buffer exhaustion report failure. -/
def tryCompleteTag (t : StreamXmlTokenizer) : Bool × StreamXmlTokenizer :=
  tryCompleteTagGo t (t.buffer.length - t.position)

/-- Pop the next already-derived token from the pending queue, clearing
the queue when it is fully consumed (the head of `NextToken`). -/
def popPending (t : StreamXmlTokenizer) : Option Token × StreamXmlTokenizer :=
  if t.pendingIndex < t.pendingTokens.length then
    let tok := t.pendingTokens.getD t.pendingIndex default
    let idx := t.pendingIndex + 1
    if idx ≥ t.pendingTokens.length then
      (some tok, { t with pendingTokens := [], pendingIndex := 0 })
    else
      (some tok, { t with pendingIndex := idx })
  else (none, t)

/-- The scan loop of `NextToken` (`for t.position < len(t.buffer)`): inside
a tag try to complete it and pop the first derived token; otherwise scan
text.  `none` means the loop broke or exhausted the buffer. -/
def nextTokenLoop : Nat → StreamXmlTokenizer →
    Option Token × StreamXmlTokenizer
  | 0, t => (none, t)
  | fuel + 1, t =>
    if t.position < t.buffer.length then
      if t.inTag then
        let r := tryCompleteTag t
        if r.1 then
          let pp := popPending r.2
          match pp.1 with
          | some tok => (some tok, pp.2)
          | none => nextTokenLoop fuel pp.2
        else (none, r.2)
      else
        let r := processText t
        match r.1 with
        | some tok => (some tok, r.2)
        | none => nextTokenLoop fuel r.2
    else (none, t)

/-- The after-loop tail of `NextToken`: flush pending literal text as a
complete Text token, else report one Incomplete token for an unterminated
tag (once per append). -/
def nextTokenPost (t : StreamXmlTokenizer) : Option Token × StreamXmlTokenizer :=
  if t.textBuffer.length > 0 ∧ t.inTag = false then
    (some { typ := .text, start := t.textStartPos
            endPos := t.position, complete := true },
     { t with textBuffer := [] })
  else if t.inTag = true ∧ t.tagBuffer.length > 0 ∧ t.incompleteReturned = false then
    (some { typ := .incomplete, start := t.tagStartPos
            endPos := t.position, complete := false },
     { t with incompleteReturned := true })
  else (none, t)

/-- `NextToken`: pending queue first, then the scan loop, then the
end-of-buffer tail.  Returns `none` when no token is available yet. -/
def nextToken (t : StreamXmlTokenizer) : Option Token × StreamXmlTokenizer :=
  let pp := popPending t
  match pp.1 with
  | some tok => (some tok, pp.2)
  | none =>
    let r := nextTokenLoop (2 * (t.buffer.length - t.position) + 4) pp.2
    match r.1 with
    | some tok => (some tok, r.2)
    | none => nextTokenPost r.2

end StreamXmlTokenizer

/-- Error values from `errors.go`. -/
inductive ParseError where
  | maxDepthExceeded
  | maxBufferSizeExceeded
  | invalidConfiguration
deriving DecidableEq, Repr

/-- `ParserConfig` from `config.go`.  `allowedElements = none` models the
Go `nil` slice (allow all). -/
structure ParserConfig where
  maxDepth : Int
  maxBufferSize : Int
  allowedElements : Option (List (List Char))
  bufferCleanupThreshold : Int
deriving DecidableEq, Repr

/-- `DefaultConfig`. -/
def defaultConfig : ParserConfig :=
  { maxDepth := 100
    maxBufferSize := 10 * 1024 * 1024
    allowedElements := none
    bufferCleanupThreshold := 1024 }

/-- `ParserConfig.Validate`: `some e` models a non-nil Go error. -/
def ParserConfig.validate (c : ParserConfig) : Option ParseError :=
  if c.maxDepth < 1 then some .invalidConfiguration
  else if c.maxBufferSize < 1024 then some .invalidConfiguration
  else if c.bufferCleanupThreshold < 0 then some .invalidConfiguration
  else none

/-- `XmlNode` (a tree-builder element): the `Partial` flag of the source
is the field `partialFlag`. -/
structure XmlNode where
  name : List Char
  attributes : List (List Char × List Char)
  content : List Char
  partialFlag : Bool
  startPos : Nat
  endPos : Nat
deriving DecidableEq, Repr, Inhabited

/-- `ASTNode`: a text node or a reference (arena index) to an element
node, each with its start position. -/
inductive ASTNode where
  | text (value : List Char) (position : Nat)
  | xml (nodeId : Nat) (position : Nat)
deriving DecidableEq, Repr

/-- Last-write-wins insertion into an association list, modelling
assignment into a Go `map[string]string`. -/
def mapSet (m : List (List Char × List Char)) (k v : List Char) :
    List (List Char × List Char) :=
  match m with
  | [] => [(k, v)]
  | (k', v') :: rest => if k' = k then (k, v) :: rest else (k', v') :: mapSet rest k v

/-- `StreamXmlParser`.  `arena` models the Go heap of `*XmlNode`
allocations; `xmlStack` and `currentPartialNode` hold arena indices
(pointers).  `xmlStack` is kept most-recently-opened-first, so the Go
`p.xmlStack[len(p.xmlStack)-1]` is the list head.  `partialNodeIndex`
keeps the Go `-1` sentinel, hence `Int`. -/
structure StreamXmlParser where
  tokenizer : StreamXmlTokenizer
  arena : List XmlNode
  astNodes : List ASTNode
  xmlStack : List Nat
  textParts : List (List Char)
  currentContent : List Char
  depth : Nat
  config : ParserConfig
  collectingTag : Bool
  tagTokens : List Token
  tagStartPos : Nat
  currentPartialNode : Option Nat
  partialNodeIndex : Int
deriving DecidableEq, Repr

namespace StreamXmlParser

/-- `NewStreamXmlParserWithConfig`: an invalid configuration is replaced
by the default one; a non-nil allow-list is forwarded to the tokenizer. -/
def newWithConfig (config : ParserConfig) : StreamXmlParser :=
  let config := match config.validate with
    | some _ => defaultConfig
    | none => config
  let base : StreamXmlParser :=
    { tokenizer := StreamXmlTokenizer.new
      arena := []
      astNodes := []
      xmlStack := []
      textParts := []
      currentContent := []
      depth := 0
      config := config
      collectingTag := false
      tagTokens := []
      tagStartPos := 0
      currentPartialNode := none
      partialNodeIndex := -1 }
  match config.allowedElements with
  | some els =>
    { base with tokenizer := base.tokenizer.setAllowedElements (some els) }
  | none => base

/-- `NewStreamXmlParser`. -/
def newDefault : StreamXmlParser :=
  newWithConfig defaultConfig

/-- `getValue`: resolve a token span against the tokenizer buffer. -/
def getValue (p : StreamXmlParser) (token : Token) : List Char :=
  if token.endPos ≤ p.tokenizer.buffer.length then
    (p.tokenizer.buffer.drop token.start).take (token.endPos - token.start)
  else []

/-- In-place mutation of the arena node at index `i` (writing through a
Go pointer). -/
def modifyNode (arena : List XmlNode) (i : Nat) (f : XmlNode → XmlNode) :
    List XmlNode :=
  arena.set i (f (arena.getD i default))

/-- Write `content` into the element currently on top of the open stack
(the Go `p.xmlStack[len(p.xmlStack)-1].Content = ...` pattern). -/
def writeTopContent (p : StreamXmlParser) (cc : List Char) : List XmlNode :=
  match p.xmlStack with
  | [] => p.arena
  | i :: _ => modifyNode p.arena i (fun n => { n with content := cc })

/-- `extractPartialTagName`: strip a leading `<`, trim, first
whitespace-delimited word. -/
def extractPartialTagName (tagValue : List Char) : List Char :=
  if tagValue.length < 2 then []
  else
    let content := if tagValue.head? = some '<' then tagValue.drop 1 else tagValue
    firstField (trimSpace content)

/-- `isClosingTagFragment`: the value clearly starts a closing tag
(`</`, `</t`, ...); a lone `<` is not filtered. -/
def isClosingTagFragment (value : List Char) : Bool :=
  match value with
  | '<' :: '/' :: _ => true
  | _ => false

/-- `reconstructTag` over abstract `(kind, value)` pairs: `<`, `>`, `/`,
the element name, a space then the attribute name, `=`, and the
double-quoted attribute value. -/
def reconstructTagVals (vals : List (TokenType × List Char)) : List Char :=
  (vals.map fun tv =>
    match tv.1 with
    | .openBracket => ['<']
    | .closeBracket => ['>']
    | .slash => ['/']
    | .elementName => tv.2
    | .attributeName => ' ' :: tv.2
    | .equals => ['=']
    | .attributeValue => '"' :: (tv.2 ++ ['"'])
    | .text => []
    | .incomplete => []).flatten

/-- `reconstructTag`: re-serialize the collected tag tokens. -/
def reconstructTag (p : StreamXmlParser) : List Char :=
  reconstructTagVals (p.tagTokens.map fun tok => (tok.typ, getValue p tok))

/-- The attribute/slash scanning loop of `processCompleteTag` (`for i <
len(p.tagTokens)-1`): collects the attribute map and the self-closing
flag.  `fuel` bounds the loop; each Go iteration advances `i`. -/
def scanTagTokens (p : StreamXmlParser) (toks : List Token) :
    Nat → List (List Char × List Char) → Bool → Nat →
    List (List Char × List Char) × Bool
  | _, attrs, sc, 0 => (attrs, sc)
  | i, attrs, sc, fuel + 1 =>
    if i < toks.length - 1 then
      let tok := toks.getD i default
      if tok.typ = .slash then
        scanTagTokens p toks (i + 1) attrs true fuel
      else if tok.typ = .attributeName then
        -- the Go cursor advances past the name, then expects `=`, then a value
        if i + 1 < toks.length ∧ (toks.getD (i + 1) default).typ = .equals then
          if i + 2 < toks.length ∧ (toks.getD (i + 2) default).typ = .attributeValue then
            scanTagTokens p toks (i + 3)
              (mapSet attrs (getValue p tok) (getValue p (toks.getD (i + 2) default))) sc fuel
          else
            scanTagTokens p toks (i + 2) attrs sc fuel
        else
          scanTagTokens p toks (i + 1) attrs sc fuel
      else
        scanTagTokens p toks (i + 1) attrs sc fuel
    else (attrs, sc)

/-- Tag classification (`processCompleteTag` lines "check for closing
tag"): a tag is closing when its second collected token is a Slash. -/
def tagIsClosing (toks : List Token) : Bool :=
  (toks.getD 1 default).typ = TokenType.slash

/-- The index of the ElementName token in the collected tag tokens (the
Go cursor after the optional Slash). -/
def tagNameIndex (toks : List Token) : Nat :=
  if tagIsClosing toks then 2 else 1

/-- Whether the expected ElementName token is present. -/
def tagHasName (toks : List Token) : Bool :=
  (toks.getD (tagNameIndex toks) default).typ = TokenType.elementName

/-- The element name extracted from the collected tag tokens (empty when
the ElementName token is missing). -/
def tagElementName (p : StreamXmlParser) : List Char :=
  if tagHasName p.tagTokens then
    getValue p (p.tagTokens.getD (tagNameIndex p.tagTokens) default)
  else []

/-- The Go cursor position at which the attribute scanning loop of
`processCompleteTag` starts. -/
def tagAttrScanStart (toks : List Token) : Nat :=
  if tagHasName toks then tagNameIndex toks + 1 else tagNameIndex toks

/-- The dispatch part of `processCompleteTag`, parameterised by the
classification and the extracted name and attributes: update the tree,
the open stack and the depth; returns the mutated parser and the
`MaxDepthExceeded` error when the depth limit is breached. -/
def processCompleteTagCore (p : StreamXmlParser) (isClosing isSelfClosing : Bool)
    (elementName : List Char) (attributes : List (List Char × List Char)) :
    StreamXmlParser × Option ParseError :=
  if isClosing then
      let depth' := if p.depth > 0 then p.depth - 1 else p.depth
      if depth' = 0 then
        match p.xmlStack with
        | [] => ({ p with depth := depth' }, none)
        | i :: rest =>
          let node := p.arena.getD i default
          let node' := { node with content := p.currentContent
                                   endPos := p.tagStartPos
                                   partialFlag := false }
          let arena := p.arena.set i node'
          if p.currentPartialNode = some i ∧ p.partialNodeIndex ≥ 0 then
            ({ p with depth := depth', xmlStack := rest, arena := arena
                      currentPartialNode := none, partialNodeIndex := -1
                      currentContent := [] }, none)
          else
            ({ p with depth := depth', xmlStack := rest, arena := arena
                      astNodes := p.astNodes ++ [ASTNode.xml i node'.startPos]
                      currentContent := [] }, none)
      else
        let cc := p.currentContent ++ reconstructTag p
        ({ p with depth := depth', currentContent := cc
                  arena := writeTopContent p cc }, none)
    else if isSelfClosing then
      if p.depth = 0 then
        match p.currentPartialNode, decide (p.partialNodeIndex ≥ 0) with
        | some i, true =>
          ({ p with arena := modifyNode p.arena i (fun n =>
                      { n with name := elementName, attributes := attributes
                               partialFlag := false, endPos := p.tagStartPos })
                    currentPartialNode := none, partialNodeIndex := -1 }, none)
        | _, _ =>
          let node : XmlNode :=
            { name := elementName, attributes := attributes, content := []
              partialFlag := false, startPos := p.tagStartPos, endPos := p.tagStartPos }
          ({ p with arena := p.arena ++ [node]
                    astNodes := p.astNodes ++ [ASTNode.xml p.arena.length p.tagStartPos] },
           none)
      else
        let cc := p.currentContent ++ reconstructTag p
        ({ p with currentContent := cc, arena := writeTopContent p cc }, none)
    else
      if p.depth = 0 then
        match p.currentPartialNode, decide (p.partialNodeIndex ≥ 0) with
        | some i, true =>
          let arena := modifyNode p.arena i (fun n =>
            { n with name := elementName, attributes := attributes })
          if p.xmlStack = [] ∨ p.xmlStack.head? ≠ some i then
            let p' := { p with arena := arena, xmlStack := i :: p.xmlStack
                               currentContent := [], depth := p.depth + 1 }
            if (p'.depth : Int) > p.config.maxDepth then
              (p', some ParseError.maxDepthExceeded)
            else (p', none)
          else ({ p with arena := arena }, none)
        | _, _ =>
          let node : XmlNode :=
            { name := elementName, attributes := attributes, content := []
              partialFlag := true, startPos := p.tagStartPos, endPos := 0 }
          let nodeId := p.arena.length
          let p' := { p with arena := p.arena ++ [node]
                             astNodes := p.astNodes ++ [ASTNode.xml nodeId p.tagStartPos]
                             currentPartialNode := some nodeId
                             partialNodeIndex := (p.astNodes.length : Int)
                             xmlStack := nodeId :: p.xmlStack
                             currentContent := [], depth := p.depth + 1 }
          if (p'.depth : Int) > p.config.maxDepth then
            (p', some ParseError.maxDepthExceeded)
          else (p', none)
      else
        let cc := p.currentContent ++ reconstructTag p
        let p' := { p with currentContent := cc, arena := writeTopContent p cc
                           depth := p.depth + 1 }
        if (p'.depth : Int) > p.config.maxDepth then
          (p', some ParseError.maxDepthExceeded)
        else (p', none)

/-- `processCompleteTag`: classify the collected tag tokens as closing /
self-closing / opening (closing: second token is a Slash; self-closing:
a Slash seen by the attribute scan), extract the element name and the
attribute map, then dispatch to `processCompleteTagCore`.  A buffer of
fewer than three tokens is an invalid tag and is ignored. -/
def processCompleteTag (p : StreamXmlParser) :
    StreamXmlParser × Option ParseError :=
  if p.tagTokens.length < 3 then (p, none)
  else
    let scanned := scanTagTokens p p.tagTokens (tagAttrScanStart p.tagTokens)
      [] false (p.tagTokens.length + 1)
    processCompleteTagCore p (tagIsClosing p.tagTokens) scanned.2
      (tagElementName p) scanned.1

/-- `processToken`: dispatch on the token kind and update the AST
incrementally. -/
def processToken (p : StreamXmlParser) (token : Token) :
    StreamXmlParser × Option ParseError :=
  match token.typ with
  | .text =>
    let value := getValue p token
    if p.depth > 0 then
      let cc := p.currentContent ++ value
      ({ p with currentContent := cc, arena := writeTopContent p cc }, none)
    else
      ({ p with astNodes := p.astNodes ++ [ASTNode.text value token.start]
                textParts := p.textParts ++ [value] }, none)
  | .openBracket =>
    ({ p with collectingTag := true, tagTokens := [token]
              tagStartPos := token.start }, none)
  | .slash | .elementName | .attributeName | .equals | .attributeValue =>
    if p.collectingTag then
      ({ p with tagTokens := p.tagTokens ++ [token] }, none)
    else (p, none)
  | .closeBracket =>
    if p.collectingTag then
      let p := { p with tagTokens := p.tagTokens ++ [token] }
      let r := processCompleteTag p
      match r.2 with
      | some e => (r.1, some e)
      | none => ({ r.1 with collectingTag := false, tagTokens := [] }, none)
    else (p, none)
  | .incomplete =>
    if token.complete = false then
      if p.depth = 0 then
        let value := getValue p token
        let tagName := extractPartialTagName value
        match p.currentPartialNode, decide (p.partialNodeIndex ≥ 0) with
        | some i, true =>
          if tagName ≠ [] ∧ tagName ≠ (p.arena.getD i default).name then
            ({ p with arena := modifyNode p.arena i
                        (fun n => { n with name := tagName }) }, none)
          else (p, none)
        | _, _ =>
          let node : XmlNode :=
            { name := tagName, partialFlag := true, content := []
              attributes := [], startPos := token.start, endPos := 0 }
          let nodeId := p.arena.length
          ({ p with arena := p.arena ++ [node]
                    astNodes := p.astNodes ++ [ASTNode.xml nodeId token.start]
                    currentPartialNode := some nodeId
                    partialNodeIndex := (p.astNodes.length : Int) }, none)
      else
        let value := getValue p token
        if isClosingTagFragment value then
          if p.currentContent.getLast? = some '<' then
            let cc := p.currentContent.dropLast
            ({ p with currentContent := cc, arena := writeTopContent p cc }, none)
          else (p, none)
        else
          let cc := p.currentContent ++ value
          ({ p with currentContent := cc, arena := writeTopContent p cc }, none)
    else (p, none)

/-- `processNewTokens`: repeatedly pull tokens from the tokenizer and
process them, stopping at the first error (already-processed effects are
kept, as in Go). -/
def processNewTokens : Nat → StreamXmlParser →
    StreamXmlParser × Option ParseError
  | 0, p => (p, none)
  | fuel + 1, p =>
    let r := StreamXmlTokenizer.nextToken p.tokenizer
    let p := { p with tokenizer := r.2 }
    match r.1 with
    | none => (p, none)
    | some tok =>
      let s := processToken p tok
      match s.2 with
      | some e => (s.1, some e)
      | none => processNewTokens fuel s.1

/-- `Append`: feed the tokenizer, then drain and process all available
tokens.  The fuel bound strictly dominates the number of tokens any
buffer of this length can produce. -/
def appendData (p : StreamXmlParser) (data : List Char) :
    StreamXmlParser × Option ParseError :=
  let p := { p with tokenizer := p.tokenizer.appendData data }
  processNewTokens
    (4 * p.tokenizer.buffer.length + p.tokenizer.pendingTokens.length + 8) p

/-- Fold a sequence of `Append` calls, keeping the first error (Go callers
stop feeding on error; later appends would still operate on the state). -/
def appendAll (p : StreamXmlParser) (chunks : List (List Char)) :
    StreamXmlParser × Option ParseError :=
  match chunks with
  | [] => (p, none)
  | c :: rest =>
    let r := appendData p c
    match r.2 with
    | some e => (r.1, some e)
    | none => appendAll r.1 rest

/-- `GetText`: concatenation of all text nodes in document order. -/
def getText (p : StreamXmlParser) : List Char :=
  (p.astNodes.filterMap fun n =>
    match n with
    | ASTNode.text v _ => some v
    | ASTNode.xml _ _ => none).flatten

/-- The arena indices of the element nodes in document order (the node
identities returned by `GetXmlNodes`). -/
def getXmlNodeIds (p : StreamXmlParser) : List Nat :=
  p.astNodes.filterMap fun n =>
    match n with
    | ASTNode.text _ _ => none
    | ASTNode.xml i _ => some i

/-- `GetXmlNodes`: all element nodes (complete and partial) in order. -/
def getXmlNodes (p : StreamXmlParser) : List XmlNode :=
  (getXmlNodeIds p).filterMap fun i => p.arena[i]?

/-- `GetXmlNode`: the first element node, if any. -/
def getXmlNode (p : StreamXmlParser) : Option XmlNode :=
  (getXmlNodes p).head?

/-- `StreamXmlParser.SetAllowedElements`: forwards to the tokenizer. -/
def setAllowed (p : StreamXmlParser) (elements : Option (List (List Char))) :
    StreamXmlParser :=
  { p with tokenizer := p.tokenizer.setAllowedElements elements }

end StreamXmlParser

/-- Whether `name` passes the tokenizer's allow-list (`nil` allows all). -/
def elementAllowed (allowed : Option (List (List Char))) (name : List Char) : Bool :=
  match allowed with
  | none => true
  | some l => StreamXmlTokenizer.allowedMem l name

/-- Parser states reachable through the public construction and mutation
surface: construction with any configuration, `Append` of any chunk
(keeping the mutated state also when `Append` returns an error, as the Go
receiver does), and `SetAllowedElements`. -/
inductive Reachable : StreamXmlParser → Prop
  | new (config : ParserConfig) : Reachable (StreamXmlParser.newWithConfig config)
  | append (p : StreamXmlParser) (data : List Char) :
      Reachable p → Reachable (StreamXmlParser.appendData p data).1
  | setAllowed (p : StreamXmlParser) (els : Option (List (List Char))) :
      Reachable p → Reachable (StreamXmlParser.setAllowed p els)

/-- A parser configured to allow only `tool` (claim C2's setting). -/
def toolOnlyParser : StreamXmlParser :=
  StreamXmlParser.newWithConfig
    { defaultConfig with allowedElements := some ["tool".toList] }

/-- A parser configured to allow only `tool` and `thinking` (claim C4's
setting). -/
def toolThinkingParser : StreamXmlParser :=
  StreamXmlParser.newWithConfig
    { defaultConfig with allowedElements := some ["tool".toList, "thinking".toList] }

/-- A parser with the nesting limit set to 1 (claim C5's setting). -/
def depthOneParser : StreamXmlParser :=
  StreamXmlParser.newWithConfig { defaultConfig with maxDepth := 1 }

/-- Split a string into its one-character chunks. -/
def perCharChunks (s : List Char) : List (List Char) :=
  s.map fun c => [c]

end StreamXml

namespace StreamXml

open StreamXmlParser

/-!
## Claim theorems
-/

/-- C1: chunk-invariance FAILS on the code.  Appending `"<a>x<b"` as one
chunk leaves the single (still partial) element with content `"x<b"`,
but appending the partition `["<a>x<", "b"]` leaves it with content
`"x<<b"`: while a tag is open, each cumulative `Incomplete` fragment of a
nested tag is re-appended to the element content in full, duplicating the
part already appended by the previous chunk.  Both runs agree on
`GetText`, on the number of elements and on the element name, and
neither errors, but the content differs — contradicting the claim that
every partition yields the same content per element node. -/
theorem c1_chunking_changes_element_content :
    (appendAll newDefault ["<a>x<b".toList]).2 = none
    ∧ (appendAll newDefault ["<a>x<".toList, "b".toList]).2 = none
    ∧ (getXmlNodes (appendAll newDefault ["<a>x<b".toList]).1).map XmlNode.name
        = ["a".toList]
    ∧ (getXmlNodes (appendAll newDefault ["<a>x<".toList, "b".toList]).1).map XmlNode.name
        = ["a".toList]
    ∧ (getXmlNodes (appendAll newDefault ["<a>x<b".toList]).1).map XmlNode.content
        = ["x<b".toList]
    ∧ (getXmlNodes (appendAll newDefault ["<a>x<".toList, "b".toList]).1).map XmlNode.content
        = ["x<<b".toList]
    ∧ (getXmlNodes (appendAll newDefault ["<a>x<b".toList]).1).map XmlNode.content
        ≠ (getXmlNodes (appendAll newDefault ["<a>x<".toList, "b".toList]).1).map XmlNode.content := by
  refine ⟨by decide, by decide, by decide, by decide, by decide, by decide, by decide⟩

/-- C2: per-character streaming of
`"Before <tool name=\"test\">content here</tool> After"` into a fresh
parser that allows only `tool` never returns an error, and the final
state has exactly one element node, with name `tool`, attributes
`{"name": "test"}`, content `"content here"`, partial flag `false`, and
`GetText` equal to `"Before  After"`. -/
theorem c2_per_character_streaming :
    (appendAll toolOnlyParser
      (perCharChunks "Before <tool name=\"test\">content here</tool> After".toList)).2
      = none
    ∧ getXmlNodes (appendAll toolOnlyParser
        (perCharChunks "Before <tool name=\"test\">content here</tool> After".toList)).1
      = [{ name := "tool".toList
           attributes := [("name".toList, "test".toList)]
           content := "content here".toList
           partialFlag := false
           startPos := 7
           endPos := 37 }]
    ∧ getText (appendAll toolOnlyParser
        (perCharChunks "Before <tool name=\"test\">content here</tool> After".toList)).1
      = "Before  After".toList := by
  refine ⟨by decide, by decide, by decide⟩

/-- The slash/attribute scanning loop of `processCompleteTag` never turns
on the self-closing flag when no collected token is a Slash token. -/
theorem scanTagTokens_no_slash (p : StreamXmlParser) (toks : List Token)
    (h : ∀ tok ∈ toks, tok.typ ≠ TokenType.slash) :
    ∀ (fuel i : Nat) (attrs : List (List Char × List Char)) (sc : Bool),
      (scanTagTokens p toks i attrs sc fuel).2 = sc := by
  have hD : ∀ i : Nat, (toks.getD i default).typ ≠ TokenType.slash := by
    intro i
    by_cases hi : i < toks.length
    · rw [List.getD_eq_getElem _ _ hi]
      exact h _ (List.getElem_mem hi)
    · rw [List.getD_eq_default _ _ (by omega)]
      simp [default]
  intro fuel
  induction fuel with
  | zero => intro i attrs sc; rfl
  | succ n ih =>
    intro i attrs sc
    unfold scanTagTokens
    split
    · rw [if_neg (by simpa using hD i)]
      split
      · split
        · split
          · exact ih _ _ _
          · exact ih _ _ _
        · exact ih _ _ _
      · exact ih _ _ _
    · rfl

/-- C4: a completed tag whose element name is not on a non-nil allow-list
is re-emitted by the tokenizer as one single complete Text token spanning
the whole tag; concretely, with allowed elements `tool` and `thinking`,
appending `"<disallowed>x</disallowed>"` yields zero element nodes, no
error, and `GetText` returns the literal tag text verbatim. -/
theorem c4_allow_list_filtering :
    (∀ (l : List (List Char)) (startPos : Nat) (tagContent : List Char),
        2 ≤ tagContent.length →
        StreamXmlTokenizer.allowedMem l
          (StreamXmlTokenizer.parseTagParts tagContent).2.2.1 = false →
        StreamXmlTokenizer.parseAndEmitTag (some l) startPos tagContent =
          [{ typ := .text, start := startPos
             endPos := startPos + tagContent.length, complete := true }])
    ∧ (appendAll toolThinkingParser ["<disallowed>x</disallowed>".toList]).2 = none
    ∧ getXmlNodes (appendAll toolThinkingParser ["<disallowed>x</disallowed>".toList]).1
        = []
    ∧ getText (appendAll toolThinkingParser ["<disallowed>x</disallowed>".toList]).1
        = "<disallowed>x</disallowed>".toList := by
  refine ⟨?_, by decide, by decide, by decide⟩
  intro l startPos tagContent hlen hmem
  unfold StreamXmlTokenizer.parseAndEmitTag
  rw [if_neg (by omega)]
  simp only [hmem]
  rfl

/-- C4 witness: the universal part applied to the tag `"<x>"` at offset 5
against the allow-list `{tool}`. -/
theorem c4_allow_list_filtering_witness :
    StreamXmlTokenizer.parseAndEmitTag (some ["tool".toList]) 5 "<x>".toList =
      [{ typ := .text, start := 5, endPos := 8, complete := true }] :=
  c4_allow_list_filtering.1 ["tool".toList] 5 "<x>".toList (by decide) (by decide)

/-- C5: with the depth limit set to 1, processing a complete opening tag
(a collected tag-token buffer that is neither closing — second token not
a Slash — nor self-closing — no Slash token at all) while one element is
already open (`depth = 1`) returns the `MaxDepthExceeded` error;
concretely, `Append "<a><b>"` on a `maxDepth = 1` parser errors. -/
theorem c5_depth_limit :
    (∀ p : StreamXmlParser,
        p.depth = 1 →
        p.config.maxDepth = 1 →
        3 ≤ p.tagTokens.length →
        (∀ tok ∈ p.tagTokens, tok.typ ≠ TokenType.slash) →
        (processCompleteTag p).2 = some ParseError.maxDepthExceeded)
    ∧ (appendAll depthOneParser ["<a><b>".toList]).2
        = some ParseError.maxDepthExceeded := by
  refine ⟨?_, by decide⟩
  intro p hdepth hmax hlen hslash
  have hlt : 1 < p.tagTokens.length := by omega
  have h1 : tagIsClosing p.tagTokens = false := by
    unfold tagIsClosing
    rw [List.getD_eq_getElem _ _ hlt]
    simpa using hslash _ (List.getElem_mem hlt)
  unfold processCompleteTag
  rw [if_neg (show ¬ p.tagTokens.length < 3 by omega)]
  dsimp only
  rw [h1, scanTagTokens_no_slash p p.tagTokens hslash]
  unfold processCompleteTagCore
  rw [if_neg (by simp), if_neg (by simp), if_neg (show ¬ p.depth = 0 by omega)]
  dsimp only
  rw [if_pos (show (((p.depth + 1 : Nat) : Int) > p.config.maxDepth) by
    rw [hdepth, hmax]; norm_num)]

/-- C5 witness: the universal part applied to an explicit parser state
with one open element, `maxDepth = 1`, and the tag-token buffer of
`"<b>"`. -/
theorem c5_depth_limit_witness :
    (processCompleteTag
      { tokenizer := { StreamXmlTokenizer.new with buffer := "<a><b>".toList }
        arena := [{ name := "a".toList, attributes := [], content := []
                    partialFlag := true, startPos := 0, endPos := 0 }]
        astNodes := [ASTNode.xml 0 0]
        xmlStack := [0]
        textParts := []
        currentContent := []
        depth := 1
        config := { defaultConfig with maxDepth := 1 }
        collectingTag := true
        tagTokens := [{ typ := .openBracket, start := 3, endPos := 4, complete := true },
                      { typ := .elementName, start := 4, endPos := 5, complete := true },
                      { typ := .closeBracket, start := 5, endPos := 6, complete := true }]
        tagStartPos := 3
        currentPartialNode := some 0
        partialNodeIndex := 0 }).2 = some ParseError.maxDepthExceeded :=
  c5_depth_limit.1 _ rfl rfl (by decide) (by decide)

/-- `reconstructTagVals` distributes over list concatenation. -/
theorem reconstructTagVals_append (a b : List (TokenType × List Char)) :
    reconstructTagVals (a ++ b) = reconstructTagVals a ++ reconstructTagVals b := by
  simp [reconstructTagVals]

/-- `reconstructTagVals` on a run of attribute token triples produces, per
attribute, a leading space, the name, `=`, and the double-quoted value. -/
theorem reconstructTagVals_attrs (attrs : List (List Char × List Char)) :
    reconstructTagVals (attrs.flatMap fun av =>
        [(TokenType.attributeName, av.1), (TokenType.equals, []),
         (TokenType.attributeValue, av.2)])
      = attrs.flatMap fun av => ' ' :: (av.1 ++ '=' :: '"' :: (av.2 ++ ['"'])) := by
  induction attrs with
  | nil => rfl
  | cons a t ih =>
    simp only [List.flatMap_cons, reconstructTagVals_append, ih]
    simp [reconstructTagVals]

/-- C7: nested tags fold to content.  Universally, re-serializing a tag
token sequence (bracket, optional slash, name, attribute triples,
optional slash, bracket) yields `<`, optional `/`, the name, a leading
space plus `name="value"` per attribute with the value double-quoted,
optional trailing `/`, `>`.  Concretely, appending
`"<outer><inner>x</inner></outer>"` (no allow-list) yields exactly one
top-level element, named `outer`, whose content is the re-serialized
`"<inner>x</inner>"`, with no separate element node for `inner` and no
error. -/
theorem c7_nested_tags_fold_to_content :
    (∀ (closing self : Bool) (n : List Char) (attrs : List (List Char × List Char)),
      reconstructTagVals
        ([(TokenType.openBracket, [])] ++
          (if closing then [(TokenType.slash, [])] else []) ++
          [(TokenType.elementName, n)] ++
          (attrs.flatMap fun av =>
            [(TokenType.attributeName, av.1), (TokenType.equals, []),
             (TokenType.attributeValue, av.2)]) ++
          (if self then [(TokenType.slash, [])] else []) ++
          [(TokenType.closeBracket, [])]) =
        ['<'] ++ (if closing then ['/'] else []) ++ n ++
          (attrs.flatMap fun av => ' ' :: (av.1 ++ '=' :: '"' :: (av.2 ++ ['"']))) ++
          (if self then ['/'] else []) ++ ['>'])
    ∧ (appendAll newDefault ["<outer><inner>x</inner></outer>".toList]).2 = none
    ∧ getXmlNodes (appendAll newDefault ["<outer><inner>x</inner></outer>".toList]).1
        = [{ name := "outer".toList, attributes := [],
             content := "<inner>x</inner>".toList, partialFlag := false,
             startPos := 0, endPos := 23 }] := by
  refine ⟨?_, by decide, by decide⟩
  intro closing self n attrs
  simp only [reconstructTagVals_append, reconstructTagVals_attrs]
  cases closing <;> cases self <;> simp [reconstructTagVals]

/-- C7 witness: the universal re-serialization shape applied to a
non-closing, non-self-closing `inner` tag with one attribute. -/
theorem c7_nested_tags_fold_to_content_witness :
    reconstructTagVals
      [(TokenType.openBracket, []), (TokenType.elementName, "inner".toList),
       (TokenType.attributeName, "k".toList), (TokenType.equals, []),
       (TokenType.attributeValue, "v".toList), (TokenType.closeBracket, [])]
      = "<inner k=\"v\">".toList := by
  have h := c7_nested_tags_fold_to_content.1 false false "inner".toList
    [("k".toList, "v".toList)]
  exact h.trans (by decide)

/-- C9: a configuration failing validation (`maxDepth < 1`, or
`maxBufferSize < 1024`, or a negative `bufferCleanupThreshold`) does not
make construction fail; the constructed parser is identical to the one
built from the full default configuration. -/
theorem c9_invalid_config_fallback :
    ∀ cfg : ParserConfig,
      cfg.maxDepth < 1 ∨ cfg.maxBufferSize < 1024 ∨ cfg.bufferCleanupThreshold < 0 →
      newWithConfig cfg = newDefault := by
  intro cfg h
  have hv : cfg.validate = some ParseError.invalidConfiguration := by
    unfold ParserConfig.validate
    by_cases h1 : cfg.maxDepth < 1
    · simp [h1]
    · by_cases h2 : cfg.maxBufferSize < 1024
      · simp [h1, h2]
      · have h3 : cfg.bufferCleanupThreshold < 0 := by tauto
        simp [h1, h2, h3]
  unfold newWithConfig newDefault
  rw [hv]
  rfl

/-- C9 witness: a configuration with `maxDepth = 0` falls back to the
default-configured parser. -/
theorem c9_invalid_config_fallback_witness :
    newWithConfig
      { maxDepth := 0, maxBufferSize := 2048
        allowedElements := none, bufferCleanupThreshold := 0 } = newDefault :=
  c9_invalid_config_fallback _ (Or.inl (by decide))

/-- The dispatch step of `processCompleteTag` preserves the relation
between the open-element stack and the depth counter: the stack holds
exactly `min depth 1` elements (pushes happen only at depth 0, nested
opens only increment the counter). -/
theorem stackInv_processCompleteTagCore (p : StreamXmlParser) (b1 b2 : Bool)
    (nm : List Char) (ats : List (List Char × List Char))
    (h : p.xmlStack.length = min p.depth 1) :
    (processCompleteTagCore p b1 b2 nm ats).1.xmlStack.length
      = min (processCompleteTagCore p b1 b2 nm ats).1.depth 1 := by
  unfold processCompleteTagCore
  repeat' split
  all_goals simp_all
  all_goals (repeat' split)
  all_goals simp_all
  all_goals (first | omega | (rw [← List.length_eq_zero]; omega))

/-- `processCompleteTag` preserves the stack/depth relation. -/
theorem stackInv_processCompleteTag (p : StreamXmlParser)
    (h : p.xmlStack.length = min p.depth 1) :
    (processCompleteTag p).1.xmlStack.length
      = min (processCompleteTag p).1.depth 1 := by
  unfold processCompleteTag
  split
  · exact h
  · exact stackInv_processCompleteTagCore p _ _ _ _ h

/-- `processToken` preserves the stack/depth relation. -/
theorem stackInv_processToken (p : StreamXmlParser) (tok : Token)
    (h : p.xmlStack.length = min p.depth 1) :
    (processToken p tok).1.xmlStack.length = min (processToken p tok).1.depth 1 := by
  have h2 : ∀ q : StreamXmlParser, q.xmlStack.length = min q.depth 1 →
      (processCompleteTag q).1.xmlStack.length = min (processCompleteTag q).1.depth 1 :=
    stackInv_processCompleteTag
  unfold processToken
  split
  case h_1 => split <;> exact h
  case h_2 => exact h
  case h_3 => split <;> exact h
  case h_4 => split <;> exact h
  case h_5 => split <;> exact h
  case h_6 => split <;> exact h
  case h_7 => split <;> exact h
  case h_8 =>
    split
    · rcases hpc : (processCompleteTag { p with tagTokens := p.tagTokens ++ [tok] }).2 with _ | e <;>
        simp only [hpc] <;> exact h2 _ h
    · exact h
  case h_9 =>
    split
    · split
      · dsimp only
        repeat' split
        all_goals exact h
      · dsimp only
        repeat' split
        all_goals exact h
    · exact h

/-- The token-processing loop preserves the stack/depth relation. -/
theorem stackInv_processNewTokens (fuel : Nat) :
    ∀ p : StreamXmlParser, p.xmlStack.length = min p.depth 1 →
      (processNewTokens fuel p).1.xmlStack.length
        = min (processNewTokens fuel p).1.depth 1 := by
  induction fuel with
  | zero => intro p h; exact h
  | succ n ih =>
    intro p h
    unfold processNewTokens
    dsimp only
    split
    · simpa using h
    · rename_i tok heq
      split
      · rename_i e heq2
        have h3 := stackInv_processToken
          { p with tokenizer := (StreamXmlTokenizer.nextToken p.tokenizer).2 } tok
          (by simpa using h)
        simpa using h3
      · exact ih _ (stackInv_processToken _ _ (by simpa using h))

/-- `Append` preserves the stack/depth relation. -/
theorem stackInv_appendData (p : StreamXmlParser) (data : List Char)
    (h : p.xmlStack.length = min p.depth 1) :
    (appendData p data).1.xmlStack.length = min (appendData p data).1.depth 1 := by
  unfold appendData
  exact stackInv_processNewTokens _ _ (by simpa using h)

/-- Freshly constructed parsers satisfy the stack/depth relation. -/
theorem stackInv_new (cfg : ParserConfig) :
    (newWithConfig cfg).xmlStack.length = min (newWithConfig cfg).depth 1 := by
  unfold newWithConfig
  dsimp only
  repeat' split
  all_goals rfl

/-- C6 (amended): in every reachable parser state, the number of element
node references on the nesting stack equals `min depth 1`, not the depth
itself: only the depth-0 element is pushed; nested opening tags increment
the depth without pushing, and nested closing tags decrement it without
popping. -/
theorem c6_stack_length_is_min_depth_one (p : StreamXmlParser) (h : Reachable p) :
    p.xmlStack.length = min p.depth 1 := by
  induction h with
  | new cfg => exact stackInv_new cfg
  | append q data hq ih => exact stackInv_appendData q data ih
  | setAllowed q els hq ih => simpa [StreamXmlParser.setAllowed] using ih

/-- C6 counterexample: the state reached by appending `"<a><b>"` to a
fresh default parser has depth 2 but only one element on the stack, so
the claimed equality `depth = stack size` fails on a reachable state. -/
theorem c6_counterexample :
    Reachable (appendData newDefault "<a><b>".toList).1
    ∧ (appendData newDefault "<a><b>".toList).1.depth
        ≠ (appendData newDefault "<a><b>".toList).1.xmlStack.length :=
  ⟨Reachable.append _ _ (Reachable.new defaultConfig), by decide⟩

/-- C6 witness: the amended invariant applied to the freshly constructed
default parser. -/
theorem c6_stack_length_is_min_depth_one_witness :
    Reachable newDefault ∧ newDefault.xmlStack.length = min newDefault.depth 1 :=
  ⟨Reachable.new defaultConfig,
   c6_stack_length_is_min_depth_one newDefault (Reachable.new defaultConfig)⟩


/-- While a depth-0 partial element is being tracked (a begun element,
with the open stack still empty), dispatching any complete tag updates
the tracked node in place: the document tree and the arena size are left
unchanged. -/
theorem inPlace_core (p : StreamXmlParser) (b1 b2 : Bool)
    (nm : List Char) (ats : List (List Char × List Char)) (i : Nat)
    (hc : p.currentPartialNode = some i) (hp : p.partialNodeIndex ≥ 0)
    (hd : p.depth = 0) (hs : p.xmlStack = []) :
    (processCompleteTagCore p b1 b2 nm ats).1.astNodes = p.astNodes ∧
    (processCompleteTagCore p b1 b2 nm ats).1.arena.length = p.arena.length := by
  unfold processCompleteTagCore
  repeat' split
  all_goals simp_all [modifyNode]
  all_goals (repeat' split)
  all_goals simp_all

/-- Dispatching a closing tag while the tracked depth-0 partial element
is the single open element finalizes that same node in place: no error,
no new document-tree entry, no new allocation, and the node's partial
flag is cleared. -/
theorem close_core (p : StreamXmlParser) (b2 : Bool)
    (nm : List Char) (ats : List (List Char × List Char)) (i : Nat) (rest : List Nat)
    (hc : p.currentPartialNode = some i) (hp : p.partialNodeIndex ≥ 0)
    (hd : p.depth = 1) (hs : p.xmlStack = i :: rest) (hi : i < p.arena.length) :
    (processCompleteTagCore p true b2 nm ats).2 = none ∧
    (processCompleteTagCore p true b2 nm ats).1.astNodes = p.astNodes ∧
    (processCompleteTagCore p true b2 nm ats).1.arena.length = p.arena.length ∧
    ((processCompleteTagCore p true b2 nm ats).1.arena.getD i default).partialFlag
      = false := by
  unfold processCompleteTagCore
  repeat' split
  all_goals simp_all [modifyNode]

/-- C3: partial-then-complete identity.  For every parser state tracking
a begun depth-0 element (`currentPartialNode` set, index non-negative),
processing a complete tag never appends to the document tree or the
arena — the element node observed through `GetXmlNodes` before and after
is the same arena slot; for a closing tag completing that element the
node is marked complete in place with no error.  Concretely, after
appending `"<too"` the tree holds exactly the partial node `0`, and
after appending `"l>x</tool>"` it still holds exactly node `0`, now
complete — completion did not change the number of element nodes. -/
theorem c3_partial_then_complete_identity :
    (∀ (p : StreamXmlParser) (i : Nat),
      p.currentPartialNode = some i → p.partialNodeIndex ≥ 0 →
      p.depth = 0 → p.xmlStack = [] →
      (processCompleteTag p).1.astNodes = p.astNodes ∧
      (processCompleteTag p).1.arena.length = p.arena.length)
    ∧ (∀ (p : StreamXmlParser) (i : Nat) (rest : List Nat),
      p.currentPartialNode = some i → p.partialNodeIndex ≥ 0 →
      p.depth = 1 → p.xmlStack = i :: rest → i < p.arena.length →
      3 ≤ p.tagTokens.length →
      (p.tagTokens.getD 1 default).typ = TokenType.slash →
      (processCompleteTag p).2 = none ∧
      (processCompleteTag p).1.astNodes = p.astNodes ∧
      (processCompleteTag p).1.arena.length = p.arena.length ∧
      ((processCompleteTag p).1.arena.getD i default).partialFlag = false)
    ∧ getXmlNodeIds (appendAll newDefault ["<too".toList]).1 = [0]
    ∧ ((appendAll newDefault ["<too".toList]).1.arena.getD 0 default).partialFlag = true
    ∧ getXmlNodeIds
        (appendAll (appendAll newDefault ["<too".toList]).1 ["l>x</tool>".toList]).1 = [0]
    ∧ ((appendAll (appendAll newDefault ["<too".toList]).1
        ["l>x</tool>".toList]).1.arena.getD 0 default).partialFlag = false := by
  refine ⟨?_, ?_, by decide, by decide, by decide, by decide⟩
  · intro p i hc hp hd hs
    unfold processCompleteTag
    split
    · exact ⟨rfl, rfl⟩
    · exact inPlace_core p _ _ _ _ i hc hp hd hs
  · intro p i rest hc hp hd hs hi hlen hslash
    have hb : tagIsClosing p.tagTokens = true := by
      unfold tagIsClosing
      rw [hslash]
      simp
    unfold processCompleteTag
    rw [if_neg (show ¬ p.tagTokens.length < 3 by omega)]
    dsimp only
    rw [hb]
    exact close_core p _ _ _ i rest hc hp hd hs hi

/-- C3 witness: the closing-tag part applied to an explicit state with
one open tracked element and the collected tokens of `"</tool>"`. -/
theorem c3_partial_then_complete_identity_witness :
    (processCompleteTag
      { tokenizer := { StreamXmlTokenizer.new with buffer := "<tool>x</tool>".toList }
        arena := [{ name := "tool".toList, attributes := [], content := "x".toList
                    partialFlag := true, startPos := 0, endPos := 0 }]
        astNodes := [ASTNode.xml 0 0]
        xmlStack := [0]
        textParts := []
        currentContent := "x".toList
        depth := 1
        config := defaultConfig
        collectingTag := true
        tagTokens := [{ typ := .openBracket, start := 7, endPos := 8, complete := true },
                      { typ := .slash, start := 8, endPos := 9, complete := true },
                      { typ := .elementName, start := 9, endPos := 13, complete := true },
                      { typ := .closeBracket, start := 13, endPos := 14, complete := true }]
        tagStartPos := 7
        currentPartialNode := some 0
        partialNodeIndex := 0 }).2 = none :=
  (c3_partial_then_complete_identity.2.1 _ 0 [] rfl (by decide) rfl rfl
    (by decide) (by decide) (by decide)).1


section TokenizerLemmas

open StreamXmlTokenizer

/-- When no `<` remains beyond the cursor, the text scan consumes the
rest of the buffer into the text accumulator and returns no token,
recording the start offset of the accumulated run. -/
theorem processTextGo_no_lt :
    ∀ (fuel : Nat) (t : StreamXmlTokenizer),
      t.position ≤ t.buffer.length →
      fuel = t.buffer.length - t.position →
      (∀ c ∈ t.buffer.drop t.position, c ≠ '<') →
      processTextGo t fuel =
        (none,
         { t with
           position := t.buffer.length
           textBuffer := t.textBuffer ++ t.buffer.drop t.position
           textStartPos :=
             if t.textBuffer.length = 0 ∧ t.position < t.buffer.length then
               t.position
             else t.textStartPos }) := by
  intro fuel
  induction fuel with
  | zero =>
    intro t hle hfuel hlt
    have hpos : t.position = t.buffer.length := by omega
    simp [processTextGo, hpos]
    rw [← hpos]
  | succ n ih =>
    intro t hle hfuel hlt
    have hpos : t.position < t.buffer.length := by omega
    have hch : t.buffer.getD t.position ' ' = t.buffer[t.position] := by
      rw [List.getD_eq_getElem _ _ hpos]
    have hdrop : t.buffer.drop t.position
        = t.buffer[t.position] :: t.buffer.drop (t.position + 1) :=
      List.drop_eq_getElem_cons hpos
    have hne : t.buffer[t.position] ≠ '<' := by
      apply hlt
      rw [hdrop]
      exact List.mem_cons_self _ _
    have hstep := ih
      { t with
        textStartPos := if t.textBuffer.length = 0 then t.position else t.textStartPos
        textBuffer := t.textBuffer ++ [t.buffer.getD t.position ' ']
        position := t.position + 1 }
      (by dsimp only; omega) (by dsimp only; omega)
      (by
        intro c hcmem
        dsimp only at hcmem
        apply hlt
        rw [hdrop]
        exact List.mem_cons_of_mem _ hcmem)
    rw [processTextGo]
    rw [if_pos hpos, if_neg (by rw [hch]; exact hne)]
    rw [hstep]
    dsimp only
    rw [hch]
    conv_rhs => rw [hdrop]
    by_cases hb : t.textBuffer.length = 0 <;> simp [hb, hpos]


/-- The `NextToken` scan loop exits immediately once the cursor has
reached the end of the buffer. -/
theorem nextTokenLoop_at_end (fuel : Nat) (t : StreamXmlTokenizer)
    (h : ¬ t.position < t.buffer.length) :
    nextTokenLoop fuel t = (none, t) := by
  cases fuel with
  | zero => rfl
  | succ n => simp [nextTokenLoop, h]

/-- C8: end-of-buffer text is complete.  For every tokenizer state with
no queued tokens, not inside a tag, no `<` in the unscanned remainder,
and pending literal text (accumulated or still unscanned), `NextToken`
returns a Text token whose `complete` flag is `true`, spanning the
accumulated text from its start offset to the end of the buffer. -/
theorem c8_end_of_buffer_text_is_complete :
    ∀ t : StreamXmlTokenizer,
      t.pendingTokens = [] →
      t.inTag = false →
      t.position ≤ t.buffer.length →
      (∀ c ∈ t.buffer.drop t.position, c ≠ '<') →
      (t.textBuffer ≠ [] ∨ t.position < t.buffer.length) →
      (nextToken t).1 =
        some { typ := TokenType.text
               start := if t.textBuffer.length = 0 then t.position else t.textStartPos
               endPos := t.buffer.length
               complete := true } := by
  intro t hpend hintag hle hlt hne
  unfold nextToken
  have hpop : popPending t = (none, t) := by
    simp [popPending, hpend]
  rw [hpop]
  dsimp only
  rcases Nat.lt_or_ge t.position t.buffer.length with hpos | hpos
  · -- characters remain: processText consumes them all
    have hpt : processText t =
        (none,
         { t with
           position := t.buffer.length
           textBuffer := t.textBuffer ++ t.buffer.drop t.position
           textStartPos :=
             if t.textBuffer.length = 0 ∧ t.position < t.buffer.length then
               t.position
             else t.textStartPos }) :=
      processTextGo_no_lt _ t hle rfl hlt
    rw [show (2 * (t.buffer.length - t.position) + 4)
        = (2 * (t.buffer.length - t.position) + 3) + 1 from rfl]
    rw [nextTokenLoop]
    rw [if_pos hpos, if_neg (by rw [hintag]; exact Bool.false_ne_true)]
    rw [hpt]
    dsimp only
    rw [nextTokenLoop_at_end _ _ (by dsimp only; omega)]
    dsimp only
    unfold nextTokenPost
    rw [if_pos (by
      constructor
      · dsimp only
        have : 0 < (t.buffer.drop t.position).length := by
          rw [List.length_drop]; omega
        simp [List.length_append]
        omega
      · rw [hintag])]
    dsimp only
    simp [hpos]
  · -- the buffer is exhausted: the loop exits immediately
    have hne2 : t.textBuffer ≠ [] := by
      rcases hne with h | h
      · exact h
      · omega
    rw [nextTokenLoop_at_end _ _ (by omega)]
    dsimp only
    unfold nextTokenPost
    rw [if_pos (by
      constructor
      · have : t.textBuffer.length ≠ 0 := by
          simpa [List.length_eq_zero] using hne2
        omega
      · rw [hintag])]
    dsimp only
    have hpos2 : t.position = t.buffer.length := by omega
    have hlen : t.textBuffer.length ≠ 0 := by
      simpa [List.length_eq_zero] using hne2
    simp [hpos2, hlen]


/-- C8 witness: the fresh tokenizer fed `"ab"`. -/
theorem c8_end_of_buffer_text_is_complete_witness :
    (StreamXmlTokenizer.nextToken
      { StreamXmlTokenizer.new with buffer := "ab".toList }).1 =
      some { typ := TokenType.text, start := 0, endPos := 2, complete := true } :=
  c8_end_of_buffer_text_is_complete _ rfl rfl (by decide) (by decide) (Or.inr (by decide))

end TokenizerLemmas

section CloseToolNoop

open StreamXmlTokenizer

/-- Scanning inside a tag whose unscanned remainder starts with a
`>`-free run followed by `>` completes the tag: the raw tag text is
accumulated, parsed, and its tokens are enqueued. -/
theorem tryCompleteTagGo_finds (m : List Char) (hm : '>' ∉ m) :
    ∀ (t : StreamXmlTokenizer) (rest : List Char) (fuel : Nat),
      t.buffer.drop t.position = m ++ '>' :: rest →
      fuel = t.buffer.length - t.position →
      tryCompleteTagGo t fuel =
        (true,
         { t with
           tagBuffer := []
           position := t.position + m.length + 1
           pendingTokens := t.pendingTokens ++
             parseAndEmitTag t.allowedElements t.tagStartPos
               (t.tagBuffer ++ (m ++ ['>']))
           inTag := false
           consumed := t.position + m.length + 1 }) := by
  induction m with
  | nil =>
    intro t rest fuel hdrop hfuel
    have hpos : t.position < t.buffer.length := by
      have := congrArg List.length hdrop
      rw [List.length_drop] at this
      simp at this
      omega
    have hcons := (List.drop_eq_getElem_cons hpos).symm.trans hdrop
    simp only [List.nil_append, List.cons.injEq] at hcons
    obtain ⟨hch, htail⟩ := hcons
    have hchD : t.buffer.getD t.position ' ' = '>' := by
      rw [List.getD_eq_getElem _ _ hpos]; exact hch
    obtain ⟨k, rfl⟩ : ∃ k, fuel = k + 1 := ⟨fuel - 1, by omega⟩
    simp only [tryCompleteTagGo]
    rw [if_pos hpos]
    rw [hchD]
    simp

  | cons c m' ih =>
    intro t rest fuel hdrop hfuel
    simp only [List.mem_cons, not_or] at hm
    obtain ⟨hc, hm'⟩ := hm
    have hpos : t.position < t.buffer.length := by
      have := congrArg List.length hdrop
      rw [List.length_drop] at this
      simp at this
      omega
    have hcons := (List.drop_eq_getElem_cons hpos).symm.trans hdrop
    simp only [List.cons_append, List.cons.injEq] at hcons
    obtain ⟨hch, htail⟩ := hcons
    have hchD : t.buffer.getD t.position ' ' = c := by
      rw [List.getD_eq_getElem _ _ hpos]; exact hch
    obtain ⟨k, rfl⟩ : ∃ k, fuel = k + 1 := ⟨fuel - 1, by omega⟩
    simp only [tryCompleteTagGo]
    rw [if_pos hpos]
    rw [hchD]
    rw [if_neg (by simpa using Ne.symm hc)]
    rw [ih hm' { t with tagBuffer := t.tagBuffer ++ [c], position := t.position + 1 }
      rest k (by simpa using htail)
      (show k = t.buffer.length - (t.position + 1) by omega)]
    dsimp only
    congr 2
    all_goals try simp
    all_goals omega


/-- One unfolding of the `NextToken` scan loop for non-zero fuel. -/
theorem nextTokenLoop_step (fuel : Nat) (t : StreamXmlTokenizer) (h : fuel ≠ 0) :
    nextTokenLoop fuel t =
      if t.position < t.buffer.length then
        if t.inTag then
          if (tryCompleteTag t).1 then
            match (popPending (tryCompleteTag t).2).1 with
            | some tok => (some tok, (popPending (tryCompleteTag t).2).2)
            | none => nextTokenLoop (fuel - 1) (popPending (tryCompleteTag t).2).2
          else (none, (tryCompleteTag t).2)
        else
          match (processText t).1 with
          | some tok => (some tok, (processText t).2)
          | none => nextTokenLoop (fuel - 1) (processText t).2
      else (none, t) := by
  obtain ⟨m, rfl⟩ : ∃ m, fuel = m + 1 := ⟨fuel - 1, by omega⟩
  simp only [nextTokenLoop, Nat.add_sub_cancel]

/-- Parsing the completed tag `"</tool>"` at offset `n` under an
allow-list that admits `tool` (or no allow-list) emits the four
structural tokens bracket, slash, name, bracket. -/
theorem parseAndEmitTag_close_tool (allowed : Option (List (List Char))) (n : Nat)
    (hA : elementAllowed allowed ("tool".toList) = true) :
    parseAndEmitTag allowed n ("</tool>".toList) =
      [{ typ := TokenType.openBracket, start := n, endPos := n + 1, complete := true },
       { typ := TokenType.slash, start := n + 1, endPos := n + 2, complete := true },
       { typ := TokenType.elementName, start := n + 2, endPos := n + 6, complete := true },
       { typ := TokenType.closeBracket, start := n + 6, endPos := n + 7, complete := true }] := by
  cases allowed with
  | none => rfl
  | some l =>
    have hmem : allowedMem l ("tool".toList) = true := by
      simpa [elementAllowed] using hA
    unfold parseAndEmitTag
    rw [if_neg (by decide)]
    dsimp only
    rw [show ((parseTagParts ("</tool>".toList)).2.2.1) = "tool".toList from rfl]
    rw [hmem]
    rfl


/-- A text scan that immediately meets `<` with an empty text
accumulator yields no token and switches into tag mode at the cursor. -/
theorem processTextGo_lt_head (t : StreamXmlTokenizer) (fuel : Nat) (hf : fuel ≠ 0)
    (hpos : t.position < t.buffer.length)
    (hch : t.buffer.getD t.position ' ' = '<')
    (htb : t.textBuffer = []) :
    processTextGo t fuel =
      (none, { t with textBuffer := [], inTag := true
                      tagStartPos := t.position, tagBuffer := [] }) := by
  obtain ⟨k, rfl⟩ : ∃ k, fuel = k + 1 := ⟨fuel - 1, by omega⟩
  simp only [processTextGo]
  rw [if_pos hpos, hch, if_pos rfl]
  simp [htb]

/-- The first `NextToken` pull after appending `"</tool>"` to a drained,
out-of-tag tokenizer scans the whole tag and returns the OpenBracket
token, leaving the remaining three structural tokens queued. -/
theorem nextToken_after_close_tool (t : StreamXmlTokenizer)
    (h1 : t.position = t.buffer.length)
    (h2 : t.inTag = false)
    (h3 : t.textBuffer = [])
    (h4 : t.pendingTokens = [])
    (h5 : t.pendingIndex = 0)
    (hA : elementAllowed t.allowedElements ("tool".toList) = true) :
    nextToken (StreamXmlTokenizer.appendData t ("</tool>".toList)) =
      (some { typ := TokenType.openBracket, start := t.position
              endPos := t.position + 1, complete := true },
       { t with
         buffer := t.buffer ++ "</tool>".toList
         incompleteReturned := false
         textBuffer := []
         inTag := false
         tagStartPos := t.position
         tagBuffer := []
         position := t.position + 7
         consumed := t.position + 7
         pendingTokens :=
           [{ typ := TokenType.openBracket, start := t.position
              endPos := t.position + 1, complete := true },
            { typ := TokenType.slash, start := t.position + 1
              endPos := t.position + 2, complete := true },
            { typ := TokenType.elementName, start := t.position + 2
              endPos := t.position + 6, complete := true },
            { typ := TokenType.closeBracket, start := t.position + 6
              endPos := t.position + 7, complete := true }]
         pendingIndex := 1 }) := by
  have hlen : (t.buffer ++ "</tool>".toList).length = t.buffer.length + 7 := by
    simp [List.length_append]
  unfold nextToken
  have hpop : popPending (StreamXmlTokenizer.appendData t ("</tool>".toList))
      = (none, StreamXmlTokenizer.appendData t ("</tool>".toList)) := by
    simp [popPending, StreamXmlTokenizer.appendData, h4]
  rw [hpop]
  dsimp only
  rw [nextTokenLoop_step _ _ (by dsimp only [StreamXmlTokenizer.appendData]; omega)]
  rw [if_pos (show (StreamXmlTokenizer.appendData t ("</tool>".toList)).position
      < (StreamXmlTokenizer.appendData t ("</tool>".toList)).buffer.length by
    dsimp only [StreamXmlTokenizer.appendData]; rw [hlen]; omega)]
  rw [if_neg (show ¬ (StreamXmlTokenizer.appendData t ("</tool>".toList)).inTag = true by
    dsimp only [StreamXmlTokenizer.appendData]; rw [h2]; exact Bool.false_ne_true)]
  have hch : (t.buffer ++ "</tool>".toList).getD t.position ' ' = '<' := by
    rw [h1, List.getD_append_right _ _ _ _ (le_refl _)]
    simp
  have hpt : processText (StreamXmlTokenizer.appendData t ("</tool>".toList)) =
      (none, { t with buffer := t.buffer ++ "</tool>".toList
                      incompleteReturned := false
                      textBuffer := [], inTag := true
                      tagStartPos := t.position, tagBuffer := [] }) := by
    unfold processText
    rw [processTextGo_lt_head _ _ (by dsimp only [StreamXmlTokenizer.appendData]; rw [hlen]; omega)
      (by dsimp only [StreamXmlTokenizer.appendData]; rw [hlen]; omega)
      (by dsimp only [StreamXmlTokenizer.appendData]; exact hch)
      (by dsimp only [StreamXmlTokenizer.appendData]; exact h3)]
    rfl
  rw [hpt]
  dsimp only
  rw [nextTokenLoop_step _ _ (by omega)]
  rw [if_pos (by dsimp only; rw [hlen]; omega)]
  rw [if_pos rfl]
  have htct : tryCompleteTag
      { t with buffer := t.buffer ++ "</tool>".toList
               incompleteReturned := false
               textBuffer := [], inTag := true
               tagStartPos := t.position, tagBuffer := [] } =
      (true,
       { t with buffer := t.buffer ++ "</tool>".toList
                incompleteReturned := false
                textBuffer := [], inTag := false
                tagStartPos := t.position
                tagBuffer := []
                position := t.position + 6 + 1
                consumed := t.position + 6 + 1
                pendingTokens := t.pendingTokens ++
                  parseAndEmitTag t.allowedElements t.position ("</tool>".toList) }) := by
    unfold tryCompleteTag
    rw [tryCompleteTagGo_finds ("</tool".toList) (by decide) _ []
      _ (by dsimp only; rw [h1]; exact List.drop_left _ _) rfl]
    rfl
  rw [htct]
  dsimp only
  rw [if_pos rfl, h4, h5, parseAndEmitTag_close_tool t.allowedElements t.position hA]
  simp [popPending]


/-- One unfolding of the token-processing loop for non-zero fuel. -/
theorem processNewTokens_step (fuel : Nat) (p : StreamXmlParser) (h : fuel ≠ 0) :
    StreamXmlParser.processNewTokens fuel p =
      match (nextToken p.tokenizer).1 with
      | none => ({ p with tokenizer := (nextToken p.tokenizer).2 }, none)
      | some tok =>
        match (StreamXmlParser.processToken
            { p with tokenizer := (nextToken p.tokenizer).2 } tok).2 with
        | some e =>
          ((StreamXmlParser.processToken
            { p with tokenizer := (nextToken p.tokenizer).2 } tok).1, some e)
        | none =>
          StreamXmlParser.processNewTokens (fuel - 1)
            (StreamXmlParser.processToken
              { p with tokenizer := (nextToken p.tokenizer).2 } tok).1 := by
  obtain ⟨m, rfl⟩ : ∃ m, fuel = m + 1 := ⟨fuel - 1, by omega⟩
  simp only [StreamXmlParser.processNewTokens, Nat.add_sub_cancel]

/-- `NextToken` on a drained tokenizer (no queued tokens, cursor at the
end of the buffer, no accumulated text, not inside a tag) yields nothing
and leaves the state unchanged. -/
theorem nextToken_drained (t : StreamXmlTokenizer)
    (hpend : t.pendingTokens = [])
    (hpos : t.buffer.length ≤ t.position)
    (htb : t.textBuffer = [])
    (hit : t.inTag = false) :
    nextToken t = (none, t) := by
  unfold nextToken
  have hpop : popPending t = (none, t) := by simp [popPending, hpend]
  rw [hpop]
  dsimp only
  rw [nextTokenLoop_at_end _ _ (by omega)]
  dsimp only
  unfold nextTokenPost
  rw [if_neg (by simp [htb]), if_neg (by simp [hit])]

/-- Processing a collected closing tag at depth 0 with an empty open
stack is a no-op apart from re-writing the (already zero) depth. -/
theorem processCompleteTag_close_empty (q : StreamXmlParser)
    (hq : q.depth = 0) (hqs : q.xmlStack = [])
    (hlen : 3 ≤ q.tagTokens.length)
    (hslash : (q.tagTokens.getD 1 default).typ = TokenType.slash) :
    StreamXmlParser.processCompleteTag q = ({ q with depth := 0 }, none) := by
  have hb : StreamXmlParser.tagIsClosing q.tagTokens = true := by
    unfold StreamXmlParser.tagIsClosing
    rw [hslash]
    simp
  unfold StreamXmlParser.processCompleteTag
  rw [if_neg (show ¬ q.tagTokens.length < 3 by omega)]
  dsimp only
  rw [hb]
  unfold StreamXmlParser.processCompleteTagCore
  rw [if_pos rfl]
  simp [hq, hqs]

/-- Master computation for claim C10: appending `"</tool>"` to a parser
whose tokenizer is drained and whose depth is 0 with an empty stack
returns no error and changes only the tokenizer bookkeeping and the
collected-tag scratch fields — tree, arena, depth and stack keep their
values. -/
theorem close_tool_noop_master (p : StreamXmlParser)
    (h1 : p.tokenizer.position = p.tokenizer.buffer.length)
    (h2 : p.tokenizer.inTag = false)
    (h3 : p.tokenizer.textBuffer = [])
    (h4 : p.tokenizer.pendingTokens = [])
    (h5 : p.tokenizer.pendingIndex = 0)
    (hA : elementAllowed p.tokenizer.allowedElements ("tool".toList) = true)
    (h7 : p.depth = 0)
    (h8 : p.xmlStack = []) :
    StreamXmlParser.appendData p ("</tool>".toList) =
      ({ p with
         tokenizer :=
           { p.tokenizer with
             buffer := p.tokenizer.buffer ++ "</tool>".toList
             position := p.tokenizer.position + 7
             consumed := p.tokenizer.position + 7
             inTag := false
             tagStartPos := p.tokenizer.position
             tagBuffer := []
             textBuffer := []
             pendingTokens := []
             pendingIndex := 0
             incompleteReturned := false }
         collectingTag := false
         tagTokens := []
         tagStartPos := p.tokenizer.position
         depth := 0 }, none) := by
  have e1 := nextToken_after_close_tool p.tokenizer h1 h2 h3 h4 h5 hA
  unfold StreamXmlParser.appendData
  rw [processNewTokens_step _ _ (by dsimp only; omega)]
  dsimp only
  rw [e1]
  dsimp only
  simp only [StreamXmlParser.processToken]
  rw [processNewTokens_step _ _ (by omega)]
  simp only [nextToken, popPending]
  norm_num
  simp only [StreamXmlParser.processToken]
  norm_num
  rw [processNewTokens_step _ _ (by omega)]
  simp only [nextToken, popPending]
  norm_num
  simp only [StreamXmlParser.processToken]
  norm_num
  rw [processNewTokens_step _ _ (by omega)]
  simp only [nextToken, popPending]
  norm_num
  simp only [StreamXmlParser.processToken]
  simp only [if_true]
  rw [processCompleteTag_close_empty]
  rotate_left
  · exact h7
  · exact h8
  · simp
  · rfl
  norm_num
  rw [processNewTokens_step _ _ (by omega)]
  rw [nextToken_drained]
  all_goals try rfl
  all_goals simp only [List.length_append, List.length_cons, List.length_nil]
  all_goals omega


/-- C10: an unmatched closing tag is a silent no-op.  Appending the
complete closing tag `"</tool>"` of an allowed element to any parser at
depth 0 with an empty open stack (and a drained tokenizer) returns no
error and leaves every observable unchanged: the document tree
(`astNodes`), the node arena, the depth, the stack, `GetText` and
`GetXmlNodes`; in particular the closing tag's characters appear in no
text node and no element. -/
theorem c10_unmatched_closing_tag_is_noop :
    ∀ p : StreamXmlParser,
      p.tokenizer.position = p.tokenizer.buffer.length →
      p.tokenizer.inTag = false →
      p.tokenizer.textBuffer = [] →
      p.tokenizer.pendingTokens = [] →
      p.tokenizer.pendingIndex = 0 →
      elementAllowed p.tokenizer.allowedElements ("tool".toList) = true →
      p.depth = 0 →
      p.xmlStack = [] →
      (StreamXmlParser.appendData p ("</tool>".toList)).2 = none
      ∧ (StreamXmlParser.appendData p ("</tool>".toList)).1.astNodes = p.astNodes
      ∧ (StreamXmlParser.appendData p ("</tool>".toList)).1.arena = p.arena
      ∧ (StreamXmlParser.appendData p ("</tool>".toList)).1.depth = 0
      ∧ (StreamXmlParser.appendData p ("</tool>".toList)).1.xmlStack = []
      ∧ StreamXmlParser.getText (StreamXmlParser.appendData p ("</tool>".toList)).1
          = StreamXmlParser.getText p
      ∧ StreamXmlParser.getXmlNodes (StreamXmlParser.appendData p ("</tool>".toList)).1
          = StreamXmlParser.getXmlNodes p := by
  intro p h1 h2 h3 h4 h5 hA h7 h8
  rw [close_tool_noop_master p h1 h2 h3 h4 h5 hA h7 h8]
  exact ⟨rfl, rfl, rfl, rfl, h8, rfl, rfl⟩

/-- C10 witness: the parser obtained by appending `"hello "` to a fresh
default parser. -/
theorem c10_unmatched_closing_tag_is_noop_witness :
    (StreamXmlParser.appendData (StreamXmlParser.appendAll newDefault
        ["hello ".toList]).1 ("</tool>".toList)).2 = none
    ∧ StreamXmlParser.getText
        (StreamXmlParser.appendData (StreamXmlParser.appendAll newDefault
          ["hello ".toList]).1 ("</tool>".toList)).1
      = StreamXmlParser.getText (StreamXmlParser.appendAll newDefault
          ["hello ".toList]).1 := by
  have e1 : (StreamXmlParser.appendAll newDefault ["hello ".toList]).1.tokenizer.position
      = (StreamXmlParser.appendAll newDefault ["hello ".toList]).1.tokenizer.buffer.length := by
    decide
  have e2 : (StreamXmlParser.appendAll newDefault ["hello ".toList]).1.tokenizer.inTag = false := by
    decide
  have e3 : (StreamXmlParser.appendAll newDefault ["hello ".toList]).1.tokenizer.textBuffer = [] := by
    decide
  have e4 : (StreamXmlParser.appendAll newDefault
      ["hello ".toList]).1.tokenizer.pendingTokens = [] := by
    decide
  have e5 : (StreamXmlParser.appendAll newDefault
      ["hello ".toList]).1.tokenizer.pendingIndex = 0 := by
    decide
  have e6 : elementAllowed (StreamXmlParser.appendAll newDefault
      ["hello ".toList]).1.tokenizer.allowedElements ("tool".toList) = true := by
    decide
  have e7 : (StreamXmlParser.appendAll newDefault ["hello ".toList]).1.depth = 0 := by
    decide
  have e8 : (StreamXmlParser.appendAll newDefault ["hello ".toList]).1.xmlStack = [] := by
    decide
  have h := c10_unmatched_closing_tag_is_noop
    (StreamXmlParser.appendAll newDefault ["hello ".toList]).1 e1 e2 e3 e4 e5 e6 e7 e8
  exact ⟨h.1, h.2.2.2.2.2.1⟩

end CloseToolNoop

end StreamXml
